import Mathlib

set_option maxHeartbeats 1000000

namespace Mirafetch

/-! Shallow embedding of the mirafetch data-collection engine
(src/info/linuxinfo.rs and src/info/macinfo.rs).

Conventions: Rust strings are Lean `String`s manipulated through their
character lists; fallible Rust operations returning `Option` are Lean
`Option`; a Rust panic (an `unwrap` failing) is modeled as `none` of an
outer `Option` and each such place is noted in the doc comment of the
definition. Machine integers are `Nat` with explicit reduction modulo
`2 ^ 64` where the Rust code performs unchecked (wrapping) arithmetic. -/

/-- Rust str::split_once on character lists: split at the first occurrence of
the separator; `none` when the separator is absent. -/
def splitOnceChars (c : Char) : List Char → Option (List Char × List Char)
  | [] => none
  | x :: xs =>
    if x = c then some ([], xs)
    else (splitOnceChars c xs).map (fun p => (x :: p.1, p.2))

/-- Rust str::split_once on strings. -/
def splitOnce (c : Char) (s : String) : Option (String × String) :=
  (splitOnceChars c s.data).map (fun p => (String.mk p.1, String.mk p.2))

/-- Rust str::starts_with for a string pattern. -/
def startsWithStr (s p : String) : Bool := p.data.isPrefixOf s.data

/-- Rust str::contains for a string pattern (substring search). -/
def strContains (s p : String) : Bool := decide (p.data <:+: s.data)

/-- Split character data at newline characters, keeping empty segments,
as Rust str::split with a newline separator. -/
def splitNl : List Char → List (List Char)
  | [] => [[]]
  | c :: cs =>
    if c = '\n' then [] :: splitNl cs
    else
      match splitNl cs with
      | [] => [[c]]
      | l :: ls => (c :: l) :: ls

/-- Strip one trailing carriage return, for line segments that were terminated
by a newline character. -/
def stripCr (l : List Char) : List Char :=
  if l.getLast? = some '\r' then l.dropLast else l

/-- Strip trailing carriage returns from every segment except the last
(the last segment of a newline split was not newline-terminated). -/
def stripCrAll : List (List Char) → List (List Char)
  | [] => []
  | [l] => [l]
  | l :: ls => stripCr l :: stripCrAll ls

/-- Rust str::lines: split at newlines, drop the final empty segment produced
by a trailing newline, and strip the carriage return of every \r\n ending. -/
def rustLines (s : String) : List String :=
  if s.data = [] then []
  else
    (if (splitNl s.data).getLast? = some [] then
      ((splitNl s.data).dropLast).map stripCr
    else stripCrAll (splitNl s.data)).map String.mk

/-- Rust str::trim_matches with a double-quote pattern: removes every leading
and every trailing double-quote character. -/
def trimQuotesChars (l : List Char) : List Char :=
  ((l.dropWhile (fun c => c = '"')).reverse.dropWhile (fun c => c = '"')).reverse

/-- Rust str::trim_matches('"') on a string. -/
def trimMatchesQuote (s : String) : String := String.mk (trimQuotesChars s.data)

/-- Rust str::trim: remove leading and trailing whitespace. -/
def rustTrim (s : String) : String :=
  String.mk (((s.data.dropWhile Char.isWhitespace).reverse.dropWhile
    Char.isWhitespace).reverse)

/-! Section: OS-Release cache (LinuxInfo::get_os_release, linuxinfo.rs lines 45-61) -/

/-- One release-descriptor line as parsed inside get_os_release:
`line.split_once('=').unwrap()` (the unwrap panics, modeled `none`, when no
`=` is present), key is the left side, value is the right side with all
surrounding double quotes removed by trim_matches. -/
def parseOsReleaseLine (line : String) : Option (String × String) :=
  (splitOnce '=' line).map (fun p => (p.1, trimMatchesQuote p.2))

/-- Parse every line of the release descriptor; `none` (a panic) as soon as
one line lacks `=`. The hash-map the Rust code extends into is modeled as an
association list in line order (keys are assumed unique). -/
def parseAllLines : List String → Option (List (String × String))
  | [] => some []
  | l :: ls => do
    let p ← parseOsReleaseLine l
    let rest ← parseAllLines ls
    pure (p :: rest)

/-- LinuxInfo::get_os_release population step. The input is the result of
reading /etc/os-release (`none` when the file cannot be read). The Rust code
runs `fs::read_to_string("/etc/os-release").ok().unwrap()`, so an unreadable
file is a panic (modeled as the outer `none`), not a skipped population. -/
def getOsRelease (content : Option String) : Option (List (String × String)) := do
  let data ← content
  parseAllLines (rustLines data)

/-- LinuxInfo::id (linuxinfo.rs lines 345-348): populate the cache, then
`get("ID").unwrap()`; the unwrap panics (outer `none`) when the key is
absent. -/
def idOp (content : Option String) : Option String := do
  let m ← getOsRelease content
  m.lookup "ID"

/-! Section: CPU field (LinuxInfo::cpu, linuxinfo.rs lines 162-179) -/

/-- LinuxInfo::cpu: from the /proc/cpuinfo content (`none` when unreadable),
find the first line starting with "model name" and the first starting with
"cpu cores", take the text after the first colon of each, trim it, split the
model at the first at-sign, and format the pieces. Every step uses the Rust
question-mark operator, so any failure yields `none`. -/
def cpu (cpuinfo : Option String) : Option String := do
  let info ← cpuinfo
  let modelLine ← (rustLines info).find? (fun x => startsWithStr x "model name")
  let mp ← splitOnce ':' modelLine
  let model := rustTrim mp.2
  let coresLine ← (rustLines info).find? (fun x => startsWithStr x "cpu cores")
  let cp ← splitOnce ':' coresLine
  let cores := rustTrim cp.2
  let md ← splitOnce '@' model
  pure (md.1 ++ " (" ++ cores ++ ") @ " ++ md.2 ++ ")")

/-! Section: Locale (LinuxInfo::locale lines 331-338; MacInfo::locale lines 219-226,
identical code) -/

/-- Rust Option::filter with a non-emptiness test, as applied to each
environment variable read. -/
def optFilterNonEmpty : Option String → Option String
  | some x => if x = "" then none else some x
  | none => none

/-- locale: the first of LANG, LC_ALL, LC_MESSAGES that is set and non-empty,
given the environment as a partial map from variable name to value. -/
def locale (env : String → Option String) : Option String :=
  match optFilterNonEmpty (env "LANG") with
  | some v => some v
  | none =>
    match optFilterNonEmpty (env "LC_ALL") with
    | some v => some v
    | none => optFilterNonEmpty (env "LC_MESSAGES")

/-- An environment variable that is unset or set to the empty string. -/
def unsetOrEmpty (o : Option String) : Prop := o = none ∨ o = some ""

/-! Section: Filesystem usage scanner (LinuxInfo::disks, linuxinfo.rs lines 280-325) -/

/-- The regular expression `(^/dev/(loop|ram|fd))|(/var/snap)` applied to one
mount-table line: the first alternative is anchored at the start of the line,
the second matches anywhere in the line. -/
def diskRegexMatch (line : String) : Bool :=
  startsWithStr line "/dev/loop" || startsWithStr line "/dev/ram" ||
    startsWithStr line "/dev/fd" || strContains line "/var/snap"

/-- The per-line keep/drop decision of the first filter_map in
LinuxInfo::disks: drop regex matches, then keep lines starting with /rpool/
or drvfs, then drop lines not starting with /dev/. All tests inspect the
whole line, whose first characters are the device field. -/
def diskLineKeep (line : String) : Bool :=
  if diskRegexMatch line then false
  else if startsWithStr line "/rpool/" || startsWithStr line "drvfs" then true
  else if !startsWithStr line "/dev/" then false
  else true

/-- Whitespace-separated fields of a mount-table line
(str::split_ascii_whitespace on the characters used by mount tables). -/
def wsFieldsChars : List Char → List Char → List (List Char)
  | acc, [] => [acc.reverse]
  | acc, c :: cs =>
    if c = ' ' ∨ c = '\t' then acc.reverse :: wsFieldsChars [] cs
    else wsFieldsChars (c :: acc) cs

/-- Whitespace-separated fields of a line, empty fields discarded. -/
def wsFields (s : String) : List String :=
  ((wsFieldsChars [] s.data).filter (fun f => f ≠ [])).map String.mk

/-- Modelled from the claim wording (for comparison with diskLineKeep): drop a
line whose device path begins with /dev/loop, /dev/ram or /dev/fd or whose
mount path lies under /var/snap, unless the mount path begins with the pool or
passthrough prefixes /rpool/ or drvfs; otherwise keep exactly the lines whose
device field begins with /dev/. -/
def diskLineKeepClaim (line : String) : Bool :=
  let fields := wsFields line
  let device := fields.headD ""
  let mount := (fields.drop 1).headD ""
  if startsWithStr device "/dev/loop" || startsWithStr device "/dev/ram" ||
      startsWithStr device "/dev/fd" || startsWithStr mount "/var/snap" then
    startsWithStr mount "/rpool/" || startsWithStr mount "drvfs"
  else startsWithStr device "/dev/"

/-- The statvfs result fields consumed by LinuxInfo::disks, all u64 values. -/
structure StatVfs where
  f_blocks : Nat
  f_bavail : Nat
  f_bsize : Nat
deriving DecidableEq

/-- Rust u64::checked_sub. -/
def checkedSub (a b : Nat) : Option Nat := if b ≤ a then some (a - b) else none

/-- Rust u64::checked_mul: `none` when the product does not fit in 64 bits. -/
def checkedMul (a b : Nat) : Option Nat :=
  if a * b < 2 ^ 64 then some (a * b) else none

/-- The usage computation of the second filter_map in LinuxInfo::disks, on the
statvfs result of one surviving mount: used blocks by checked_sub (underflow
drops the entry), zero used blocks drops the entry, used bytes by checked_mul
(overflow drops the entry); the total-byte count is the unchecked product
`total * block_size`, reduced modulo 2^64 as a wrapping multiply. Returns
(usedBytes, totalBytesWrapped). -/
def diskUsage (s : StatVfs) : Option (Nat × Nat) :=
  (checkedSub s.f_blocks s.f_bavail).bind fun sizeUsed =>
    if sizeUsed = 0 then none
    else
      (checkedMul sizeUsed s.f_bsize).map fun bytes =>
        (bytes, s.f_blocks * s.f_bsize % 2 ^ 64)

/-! Section: Network interface enumerator (LinuxInfo::ip, linuxinfo.rs lines
222-279; MacInfo::ip, macinfo.rs lines 139-193) -/

/-- libc flag and family constants used by the enumerator. -/
def IFF_RUNNING : Nat := 0x40

/-- libc interface-loopback flag. -/
def IFF_LOOPBACK : Nat := 0x8

/-- libc deprecated-address flag (checked only by the Linux code). -/
def IFA_F_DEPRECATED : Nat := 0x20

/-- libc IPv4 address family. -/
def AF_INET : Nat := 2

/-- libc IPv6 address family on Linux. -/
def AF_INET6_LINUX : Nat := 10

/-- libc IPv6 address family on macOS. -/
def AF_INET6_MAC : Nat := 30

/-- One node of the getifaddrs list as consumed by the enumerator:
whether ifa_addr is null, the ifa_flags bitmask, the sa_family tag, and the
family-specific payloads (the u32 sin_addr.s_addr for IPv4, the sixteen
s6_addr bytes for IPv6). -/
structure IfAddr where
  ifaAddrNull : Bool
  ifaFlags : Nat
  saFamily : Nat
  v4Addr : Nat
  v6Addr : List Nat
deriving DecidableEq

/-- Insertion into a hash set, modeled as an insertion-ordered list without
duplicates. -/
def insertSet {α : Type} [DecidableEq α] (s : List α) (a : α) : List α :=
  if a ∈ s then s else s ++ [a]

/-- Rust u32::swap_bytes, for a value below 2^32. -/
def swapBytes32 (n : Nat) : Nat :=
  n % 256 * 16777216 + n / 256 % 256 * 65536 + n / 65536 % 256 * 256 +
    n / 16777216 % 256

/-- The IPv4 branch of the enumerator body: when the family tag is AF_INET,
insert the byte-swapped sin_addr into the IPv4 set. -/
def ipV4Insert (a : IfAddr) (v4 : List Nat) : List Nat :=
  if a.saFamily = AF_INET then insertSet v4 (swapBytes32 a.v4Addr) else v4

/-- The IPv6 branch of the enumerator body: when the family tag matches the
platform's AF_INET6, insert the s6_addr bytes into the IPv6 set unless they
start with the two bytes 0xfe, 0x80. -/
def ipV6Insert (af6 : Nat) (a : IfAddr) (v6 : List (List Nat)) :
    List (List Nat) :=
  if a.saFamily = af6 then
    if [0xfe, 0x80].isPrefixOf a.v6Addr then v6
    else insertSet v6 a.v6Addr
  else v6

/-- One iteration of the getifaddrs traversal: skip nodes with a null
ifa_addr, nodes whose interface is not running, loopback nodes and (on Linux,
where dep is true) nodes carrying the deprecated flag; otherwise run both
family branches (they touch the two disjoint per-family sets). -/
def ipStep (dep : Bool) (af6 : Nat) (st : List Nat × List (List Nat))
    (a : IfAddr) : List Nat × List (List Nat) :=
  if a.ifaAddrNull = true then st
  else if a.ifaFlags &&& IFF_RUNNING = 0 then st
  else if a.ifaFlags &&& IFF_LOOPBACK ≠ 0 then st
  else if dep = true ∧ a.ifaFlags &&& IFA_F_DEPRECATED ≠ 0 then st
  else (ipV4Insert a st.1, ipV6Insert af6 a st.2)

/-- The accumulated per-family address sets after walking the whole
getifaddrs list. -/
def ipSets (dep : Bool) (af6 : Nat) (records : List IfAddr) :
    List Nat × List (List Nat) :=
  records.foldl (ipStep dep af6) ([], [])

/-- Display of Rust Ipv4Addr::from(u32): dotted decimal octets from the most
significant byte down. -/
def ipv4Render (n : Nat) : String :=
  toString (n / 16777216 % 256) ++ "." ++ toString (n / 65536 % 256) ++ "." ++
    toString (n / 256 % 256) ++ "." ++ toString (n % 256)

/-- The value returned by the ip operation: a vector literal holding the one
comma-joined rendering of the IPv4 set (the IPv6 rendering is commented out in
both sources). -/
def ipOutput (dep : Bool) (af6 : Nat) (records : List IfAddr) : List String :=
  [String.intercalate ", " (((ipSets dep af6 records).1).map ipv4Render)]

/-- LinuxInfo::ip output on a given record list. -/
def linuxIp (records : List IfAddr) : List String :=
  ipOutput true AF_INET6_LINUX records

/-- MacInfo::ip output on a given record list. -/
def macIp (records : List IfAddr) : List String :=
  ipOutput false AF_INET6_MAC records

/-- A record that survives the flag filters of the enumerator: non-null
address, running, not loopback, and (when the platform checks it) not
deprecated. -/
def passesFilter (dep : Bool) (a : IfAddr) : Prop :=
  a.ifaAddrNull = false ∧ a.ifaFlags &&& IFF_RUNNING ≠ 0 ∧
    a.ifaFlags &&& IFF_LOOPBACK = 0 ∧
    (dep = true → a.ifaFlags &&& IFA_F_DEPRECATED = 0)

/-- Modelled from the claim wording (for comparison with trimMatchesQuote):
strip exactly one layer of surrounding double quotes from a value. -/
def stripOneQuoteLayer (s : String) : String :=
  if 2 ≤ s.data.length ∧ s.data.head? = some '"' ∧ s.data.getLast? = some '"'
  then String.mk (s.data.drop 1).dropLast
  else s

/-- A sample environment for the locale witness: LANG set but empty, LC_ALL
set and non-empty, LC_MESSAGES unset. -/
def envSample : String → Option String :=
  fun k =>
    if k = "LANG" then some ""
    else if k = "LC_ALL" then some "fr_FR.UTF-8" else none

/-! Section: Lemmas about the network interface enumerator -/

theorem mem_insertSet {α : Type} [DecidableEq α] {s : List α} {a x : α}
    (hx : x ∈ insertSet s a) : x ∈ s ∨ x = a := by
  unfold insertSet at hx
  by_cases h : a ∈ s
  · rw [if_pos h] at hx
    exact Or.inl hx
  · rw [if_neg h] at hx
    rcases List.mem_append.1 hx with h1 | h1
    · exact Or.inl h1
    · exact Or.inr (List.mem_singleton.1 h1)

theorem nodup_insertSet {α : Type} [DecidableEq α] {s : List α} (a : α)
    (hs : s.Nodup) : (insertSet s a).Nodup := by
  unfold insertSet
  by_cases h : a ∈ s
  · rw [if_pos h]
    exact hs
  · rw [if_neg h]
    refine List.Nodup.append hs (List.nodup_singleton a) ?_
    intro x hx hxa
    rw [List.mem_singleton] at hxa
    exact h (hxa ▸ hx)

theorem mem_ipV4Insert {a : IfAddr} {v4 : List Nat} {x : Nat}
    (hx : x ∈ ipV4Insert a v4) :
    x ∈ v4 ∨ (a.saFamily = AF_INET ∧ x = swapBytes32 a.v4Addr) := by
  unfold ipV4Insert at hx
  by_cases h : a.saFamily = AF_INET
  · rw [if_pos h] at hx
    rcases mem_insertSet hx with h1 | h1
    · exact Or.inl h1
    · exact Or.inr ⟨h, h1⟩
  · rw [if_neg h] at hx
    exact Or.inl hx

theorem mem_ipV6Insert {af6 : Nat} {a : IfAddr} {v6 : List (List Nat)}
    {b : List Nat} (hb : b ∈ ipV6Insert af6 a v6) :
    b ∈ v6 ∨ (a.saFamily = af6 ∧ [0xfe, 0x80].isPrefixOf a.v6Addr = false ∧
      b = a.v6Addr) := by
  unfold ipV6Insert at hb
  by_cases h : a.saFamily = af6
  · rw [if_pos h] at hb
    by_cases h2 : [0xfe, 0x80].isPrefixOf a.v6Addr
    · rw [if_pos h2] at hb
      exact Or.inl hb
    · rw [if_neg h2] at hb
      rcases mem_insertSet hb with h1 | h1
      · exact Or.inl h1
      · exact Or.inr ⟨h, Bool.eq_false_iff.mpr h2, h1⟩
  · rw [if_neg h] at hb
    exact Or.inl hb

theorem nodup_ipV4Insert (a : IfAddr) {v4 : List Nat} (hv : v4.Nodup) :
    (ipV4Insert a v4).Nodup := by
  unfold ipV4Insert
  by_cases h : a.saFamily = AF_INET
  · rw [if_pos h]
    exact nodup_insertSet _ hv
  · rw [if_neg h]
    exact hv

theorem nodup_ipV6Insert (af6 : Nat) (a : IfAddr) {v6 : List (List Nat)}
    (hv : v6.Nodup) : (ipV6Insert af6 a v6).Nodup := by
  unfold ipV6Insert
  by_cases h : a.saFamily = af6
  · rw [if_pos h]
    by_cases h2 : [0xfe, 0x80].isPrefixOf a.v6Addr
    · rw [if_pos h2]
      exact hv
    · rw [if_neg h2]
      exact nodup_insertSet _ hv
  · rw [if_neg h]
    exact hv

theorem passesFilter_of_reached {dep : Bool} {a : IfAddr}
    (h1 : ¬a.ifaAddrNull = true) (h2 : ¬a.ifaFlags &&& IFF_RUNNING = 0)
    (h3 : ¬a.ifaFlags &&& IFF_LOOPBACK ≠ 0)
    (h4 : ¬(dep = true ∧ a.ifaFlags &&& IFA_F_DEPRECATED ≠ 0)) :
    passesFilter dep a := by
  refine ⟨?_, h2, not_ne_iff.mp h3, ?_⟩
  · revert h1
    cases a.ifaAddrNull <;> simp
  · intro hd
    by_contra hne
    exact h4 ⟨hd, hne⟩

theorem mem_ipStep_fst {dep : Bool} {af6 : Nat}
    {st : List Nat × List (List Nat)} {a : IfAddr} {x : Nat}
    (hx : x ∈ (ipStep dep af6 st a).1) :
    x ∈ st.1 ∨ (passesFilter dep a ∧ a.saFamily = AF_INET ∧
      x = swapBytes32 a.v4Addr) := by
  unfold ipStep at hx
  split_ifs at hx with h1 h2 h3 h4
  · exact Or.inl hx
  · exact Or.inl hx
  · exact Or.inl hx
  · exact Or.inl hx
  · rcases mem_ipV4Insert hx with h | ⟨hf, hv⟩
    · exact Or.inl h
    · exact Or.inr ⟨passesFilter_of_reached h1 h2 h3 h4, hf, hv⟩

theorem mem_ipStep_snd {dep : Bool} {af6 : Nat}
    {st : List Nat × List (List Nat)} {a : IfAddr} {b : List Nat}
    (hb : b ∈ (ipStep dep af6 st a).2) :
    b ∈ st.2 ∨ (passesFilter dep a ∧ a.saFamily = af6 ∧
      [0xfe, 0x80].isPrefixOf a.v6Addr = false ∧ b = a.v6Addr) := by
  unfold ipStep at hb
  split_ifs at hb with h1 h2 h3 h4
  · exact Or.inl hb
  · exact Or.inl hb
  · exact Or.inl hb
  · exact Or.inl hb
  · rcases mem_ipV6Insert hb with h | ⟨hf, hp, hv⟩
    · exact Or.inl h
    · exact Or.inr ⟨passesFilter_of_reached h1 h2 h3 h4, hf, hp, hv⟩

theorem nodup_ipStep {dep : Bool} {af6 : Nat} {st : List Nat × List (List Nat)}
    (a : IfAddr) (h1 : st.1.Nodup) (h2 : st.2.Nodup) :
    (ipStep dep af6 st a).1.Nodup ∧ (ipStep dep af6 st a).2.Nodup := by
  unfold ipStep
  split_ifs
  · exact ⟨h1, h2⟩
  · exact ⟨h1, h2⟩
  · exact ⟨h1, h2⟩
  · exact ⟨h1, h2⟩
  · exact ⟨nodup_ipV4Insert a h1, nodup_ipV6Insert af6 a h2⟩

theorem mem_ipFold_fst (dep : Bool) (af6 : Nat) :
    ∀ (records : List IfAddr) (st : List Nat × List (List Nat)) (x : Nat),
      x ∈ (records.foldl (ipStep dep af6) st).1 →
      x ∈ st.1 ∨ ∃ a, a ∈ records ∧ passesFilter dep a ∧
        a.saFamily = AF_INET ∧ x = swapBytes32 a.v4Addr := by
  intro records
  induction records with
  | nil => exact fun st x hx => Or.inl hx
  | cons a rs ih =>
    intro st x hx
    rw [List.foldl_cons] at hx
    rcases ih (ipStep dep af6 st a) x hx with h | ⟨b, hb, hrest⟩
    · rcases mem_ipStep_fst h with h1 | hp
      · exact Or.inl h1
      · exact Or.inr ⟨a, List.mem_cons_self a rs, hp⟩
    · exact Or.inr ⟨b, List.mem_cons_of_mem a hb, hrest⟩

theorem mem_ipFold_snd (dep : Bool) (af6 : Nat) :
    ∀ (records : List IfAddr) (st : List Nat × List (List Nat)) (b : List Nat),
      b ∈ (records.foldl (ipStep dep af6) st).2 →
      b ∈ st.2 ∨ ∃ a, a ∈ records ∧ passesFilter dep a ∧ a.saFamily = af6 ∧
        [0xfe, 0x80].isPrefixOf a.v6Addr = false ∧ b = a.v6Addr := by
  intro records
  induction records with
  | nil => exact fun st b hb => Or.inl hb
  | cons a rs ih =>
    intro st b hb
    rw [List.foldl_cons] at hb
    rcases ih (ipStep dep af6 st a) b hb with h | ⟨c, hc, hrest⟩
    · rcases mem_ipStep_snd h with h1 | hp
      · exact Or.inl h1
      · exact Or.inr ⟨a, List.mem_cons_self a rs, hp⟩
    · exact Or.inr ⟨c, List.mem_cons_of_mem a hc, hrest⟩

theorem nodup_ipFold (dep : Bool) (af6 : Nat) :
    ∀ (records : List IfAddr) (st : List Nat × List (List Nat)),
      st.1.Nodup → st.2.Nodup →
      (records.foldl (ipStep dep af6) st).1.Nodup ∧
        (records.foldl (ipStep dep af6) st).2.Nodup := by
  intro records
  induction records with
  | nil => exact fun st h1 h2 => ⟨h1, h2⟩
  | cons a rs ih =>
    intro st h1 h2
    rw [List.foldl_cons]
    have hstep := @nodup_ipStep dep af6 st a h1 h2
    exact ih (ipStep dep af6 st a) hstep.1 hstep.2

/-! Section: Lemmas about release-descriptor parsing -/

theorem parseAllLines_isSome :
    ∀ ls : List String, (∀ l ∈ ls, (parseOsReleaseLine l).isSome) →
      (parseAllLines ls).isSome
  | [], _ => rfl
  | l :: ls, h => by
    rcases Option.isSome_iff_exists.1 (h l (List.mem_cons_self l ls)) with ⟨p, hp⟩
    rcases Option.isSome_iff_exists.1
      (parseAllLines_isSome ls (fun x hx => h x (List.mem_cons_of_mem l hx)))
      with ⟨r, hr⟩
    simp [parseAllLines, hp, hr]

theorem parseAllLines_none :
    ∀ (ls : List String) (l : String), l ∈ ls → parseOsReleaseLine l = none →
      parseAllLines ls = none := by
  intro ls
  induction ls with
  | nil => intro l hl; exact absurd hl (List.not_mem_nil l)
  | cons a ls ih =>
    intro l hl hn
    rcases List.mem_cons.1 hl with h | h
    · simp [parseAllLines, h ▸ hn]
    · cases hp : parseOsReleaseLine a
      · simp [parseAllLines, hp]
      · simp [parseAllLines, hp, ih l h hn]

/-! Section: Claim C1 -/

/-- C1, counterexample: when the release descriptor cannot be read, cache
population is not skipped with an empty map — `read_to_string(..).ok().unwrap()`
panics (the population returns no map at all), contradicting the claimed
contract that no operation raises an error and the map stays empty. -/
theorem claimC1_counterexample :
    getOsRelease none = none ∧ getOsRelease none ≠ some [] := by
  decide

/-- C1, amended: the release-cache population panics (returns no map) when
the descriptor file cannot be read, and also panics when some line of a
readable descriptor lacks an equals sign; it produces a map exactly when the
file is readable and every line splits at an equals sign. Operations built on
the cache therefore can raise; the error-collapsing contract does not hold on
this path. -/
theorem claimC1_theorem :
    getOsRelease none = none ∧
    (∀ data : String, (∀ l ∈ rustLines data, (splitOnce '=' l).isSome) →
      (getOsRelease (some data)).isSome) ∧
    (∀ (data l : String), l ∈ rustLines data → splitOnce '=' l = none →
      getOsRelease (some data) = none) := by
  refine ⟨rfl, ?_, ?_⟩
  · intro data h
    have hall : ∀ l ∈ rustLines data, (parseOsReleaseLine l).isSome := by
      intro l hl
      have hs := h l hl
      rcases Option.isSome_iff_exists.1 hs with ⟨p, hp⟩
      simp [parseOsReleaseLine, hp]
    simpa [getOsRelease] using parseAllLines_isSome _ hall
  · intro data l hl hn
    have hline : parseOsReleaseLine l = none := by
      simp [parseOsReleaseLine, hn]
    simpa [getOsRelease] using parseAllLines_none _ l hl hline

/-- C1, witness: the amended theorem evaluated at a readable well-formed
descriptor, at a readable descriptor with an empty (equals-free) line, and at
an unreadable file. -/
theorem claimC1_witness :
    (getOsRelease (some "ID=arch")).isSome ∧
    getOsRelease (some "NAME=x\n\nID=y") = none ∧
    getOsRelease none = none :=
  ⟨claimC1_theorem.2.1 "ID=arch" (by decide),
    claimC1_theorem.2.2 "NAME=x\n\nID=y" "" (by decide) (by decide),
    claimC1_theorem.1⟩

/-! Section: Claim C10 -/

/-- C10: id() cannot report absence — once the cache is populated with a map
lacking the key "ID", the `get("ID").unwrap()` panics (returns no value), and
when the key is present the bare value is returned. -/
theorem claimC10_theorem :
    (∀ (content : Option String) (m : List (String × String)),
      getOsRelease content = some m → m.lookup "ID" = none →
      idOp content = none) ∧
    (∀ (content : Option String) (m : List (String × String)) (v : String),
      getOsRelease content = some m → m.lookup "ID" = some v →
      idOp content = some v) := by
  constructor
  · intro content m hm hid
    simp [idOp, hm, hid]
  · intro content m v hm hid
    simp [idOp, hm, hid]

/-- C10, witness: a descriptor without an ID line makes id() panic; a
descriptor with ID=ubuntu makes it return "ubuntu". -/
theorem claimC10_witness :
    idOp (some "NAME=x") = none ∧ idOp (some "ID=ubuntu") = some "ubuntu" :=
  ⟨claimC10_theorem.1 (some "NAME=x") [("NAME", "x")] (by decide) (by decide),
    claimC10_theorem.2 (some "ID=ubuntu") [("ID", "ubuntu")] "ubuntu"
      (by decide) (by decide)⟩

/-! Section: Lemmas about quote stripping and splitting -/

theorem splitOnceChars_append (c : Char) :
    ∀ x y : List Char, c ∉ x → splitOnceChars c (x ++ c :: y) = some (x, y)
  | [], y, _ => by simp [splitOnceChars]
  | a :: x, y, h => by
    have ha : ¬a = c := fun hh => h (hh ▸ List.mem_cons_self a x)
    simp [splitOnceChars, ha,
      splitOnceChars_append c x y (fun hx => h (List.mem_cons_of_mem a hx))]

theorem head?_dropWhile_quote :
    ∀ l : List Char, (l.dropWhile (fun ch => ch = '"')).head? ≠ some '"'
  | [] => by simp
  | a :: l => by
    by_cases ha : a = '"'
    · simpa [List.dropWhile_cons, ha] using head?_dropWhile_quote l
    · simp [List.dropWhile_cons, ha]

theorem getLast?_dropWhile_of_ne_nil (p : Char → Bool) :
    ∀ l : List Char, l.dropWhile p ≠ [] →
      (l.dropWhile p).getLast? = l.getLast?
  | [], h => absurd rfl h
  | a :: l, h => by
    by_cases ha : p a
    · rw [List.dropWhile_cons, if_pos ha] at h ⊢
      cases l with
      | nil => exact absurd rfl h
      | cons b m =>
        rw [getLast?_dropWhile_of_ne_nil p (b :: m) h, List.getLast?_cons_cons]
    · rw [List.dropWhile_cons, if_neg ha]

theorem trimQuotesChars_getLast (l : List Char) :
    (trimQuotesChars l).getLast? ≠ some '"' := by
  unfold trimQuotesChars
  rw [List.getLast?_reverse]
  exact head?_dropWhile_quote ((l.dropWhile (fun ch => ch = '"')).reverse)

theorem trimQuotesChars_head (l : List Char) :
    (trimQuotesChars l).head? ≠ some '"' := by
  unfold trimQuotesChars
  rw [List.head?_reverse]
  by_cases h :
      ((l.dropWhile (fun ch => ch = '"')).reverse.dropWhile
        (fun ch => ch = '"')) = []
  · rw [h]
    simp
  · rw [getLast?_dropWhile_of_ne_nil _ _ h, List.getLast?_reverse]
    exact head?_dropWhile_quote l

/-! Section: Claim C6 -/

/-- C6, counterexample: on the line X=""v"" the parser stores the value v —
trim_matches removes every surrounding quote character — whereas the claim
(strip exactly one layer, a doubly quoted value keeps the inner layer) calls
for "v". -/
theorem claimC6_counterexample :
    parseOsReleaseLine "X=\"\"v\"\"" = some ("X", "v") ∧
    stripOneQuoteLayer "\"\"v\"\"" = "\"v\"" ∧ ("v" : String) ≠ "\"v\"" := by
  decide

/-- C6, amended: a release-descriptor line made of an equals-free key, an
equals sign and a value parses to exactly that key and to the value with all
(not one layer of) leading and trailing double quotes removed; consequently a
stored value never starts or ends with a double-quote character. -/
theorem claimC6_theorem :
    (∀ x y : List Char, '=' ∉ x →
      parseOsReleaseLine (String.mk (x ++ '=' :: y)) =
        some (String.mk x, trimMatchesQuote (String.mk y))) ∧
    (∀ line k v : String, parseOsReleaseLine line = some (k, v) →
      v.data.head? ≠ some '"' ∧ v.data.getLast? ≠ some '"') := by
  constructor
  · intro x y hx
    simp [parseOsReleaseLine, splitOnce, splitOnceChars_append '=' x y hx]
  · intro line k v h
    cases hc : splitOnceChars '=' line.data with
    | none => simp [parseOsReleaseLine, splitOnce, hc] at h
    | some p =>
      simp only [parseOsReleaseLine, splitOnce, hc, Option.map_some',
        Option.some.injEq, Prod.mk.injEq] at h
      rw [← h.2]
      exact ⟨trimQuotesChars_head _, trimQuotesChars_getLast _⟩

/-- C6, witness: the amended parse applied to the line ID="x" (key equals-free)
and the boundary-quote-freeness applied to its parsed value. -/
theorem claimC6_witness :
    parseOsReleaseLine (String.mk (['I', 'D'] ++ '=' :: ['"', 'x', '"'])) =
      some (String.mk ['I', 'D'], trimMatchesQuote (String.mk ['"', 'x', '"'])) ∧
    (("x" : String).data.head? ≠ some '"' ∧
      ("x" : String).data.getLast? ≠ some '"') :=
  ⟨claimC6_theorem.1 ['I', 'D'] ['"', 'x', '"'] (by decide),
    claimC6_theorem.2 "ID=\"x\"" "ID" "x" (by decide)⟩

/-! Section: Claim C7 -/

/-- C7, counterexample: on the stated CPU descriptor the cpu operation
returns Example CPU  (8) @  3.00GHz) with two double spaces — the split at
the at-sign keeps the spaces around it — not the claimed single-spaced
string. -/
theorem claimC7_counterexample :
    cpu (some "model name : Example CPU @ 3.00GHz\ncpu cores : 8") =
      some "Example CPU  (8) @  3.00GHz)" ∧
    ("Example CPU  (8) @  3.00GHz)" : String) ≠
      "Example CPU (8) @ 3.00GHz)" := by
  decide

/-- C7, amended: given CPU descriptor content with the lines
model name : Example CPU @ 3.00GHz and cpu cores : 8, the cpu operation
returns exactly Example CPU  (8) @  3.00GHz), with a double space before the
core count and before the frequency and with the quirk trailing
parenthesis. -/
theorem claimC7_theorem :
    cpu (some "model name : Example CPU @ 3.00GHz\ncpu cores : 8") =
      some "Example CPU  (8) @  3.00GHz)" := by
  decide

/-! Section: Claim C9 -/

/-- C9: on both platforms (the two sources share this code verbatim) the
locale operation returns the value of the first variable among LANG, LC_ALL,
LC_MESSAGES that is set and non-empty, returns absent when none is, and a
variable set to the empty string is skipped exactly like an unset one. -/
theorem claimC9_theorem (env : String → Option String) :
    (∀ v : String, v ≠ "" → env "LANG" = some v → locale env = some v) ∧
    (∀ v : String, unsetOrEmpty (env "LANG") → v ≠ "" →
      env "LC_ALL" = some v → locale env = some v) ∧
    (∀ v : String, unsetOrEmpty (env "LANG") → unsetOrEmpty (env "LC_ALL") →
      v ≠ "" → env "LC_MESSAGES" = some v → locale env = some v) ∧
    (unsetOrEmpty (env "LANG") → unsetOrEmpty (env "LC_ALL") →
      unsetOrEmpty (env "LC_MESSAGES") → locale env = none) := by
  have hfil : ∀ o : Option String, unsetOrEmpty o → optFilterNonEmpty o = none := by
    intro o ho
    rcases ho with h | h <;> simp [h, optFilterNonEmpty]
  refine ⟨?_, ?_, ?_, ?_⟩
  · intro v hv hl
    unfold locale
    rw [hl]
    simp [optFilterNonEmpty, hv]
  · intro v h1 hv hl
    unfold locale
    rw [hfil _ h1, hl]
    simp [optFilterNonEmpty, hv]
  · intro v h1 h2 hv hl
    unfold locale
    rw [hfil _ h1, hfil _ h2, hl]
    simp [optFilterNonEmpty, hv]
  · intro h1 h2 h3
    unfold locale
    rw [hfil _ h1, hfil _ h2, hfil _ h3]

/-- C9, witness: with LANG set but empty, LC_ALL set to fr_FR.UTF-8 and
LC_MESSAGES unset, the locale operation skips the empty LANG and returns the
LC_ALL value. -/
theorem claimC9_witness : locale envSample = some "fr_FR.UTF-8" :=
  (claimC9_theorem envSample).2.1 "fr_FR.UTF-8" (Or.inr (by decide))
    (by decide) (by decide)

/-! Section: Claim C4 -/

/-- C4, counterexample: the enumerator keeps the IPv6 address fe81::1, whose
first byte is 0xfe and whose second byte has top bits 10 — an address inside
the link-local range fe80::/10 — because the code only compares the first two
bytes against exactly 0xfe, 0x80. So a link-local /10 address does appear in
the accumulated IPv6 set. -/
theorem claimC4_counterexample :
    (ipSets true AF_INET6_LINUX
      [⟨false, 64, 10, 0,
        [254, 129, 0, 0, 0, 0, 0, 0, 0, 0, 0, 0, 0, 0, 0, 1]⟩]).2 =
      [[254, 129, 0, 0, 0, 0, 0, 0, 0, 0, 0, 0, 0, 0, 0, 1]] ∧
    (254 : Nat) = 0xfe ∧ (129 : Nat) &&& 192 = 128 := by
  decide

/-- C4, amended: on either platform (any deprecated-check setting and any
AF_INET6 tag value), no IPv6 address whose first two bytes are exactly
0xfe, 0x80 ever appears in the accumulated IPv6 address set; addresses of
fe80::/10 outside fe80::/16 are not excluded. -/
theorem claimC4_theorem (dep : Bool) (af6 : Nat) (records : List IfAddr)
    (b : List Nat) (hb : b ∈ (ipSets dep af6 records).2) :
    [0xfe, 0x80].isPrefixOf b = false := by
  unfold ipSets at hb
  rcases mem_ipFold_snd dep af6 records ([], []) b hb with h | ⟨a, _, _, _, hp, hv⟩
  · exact absurd h (List.not_mem_nil b)
  · exact hv ▸ hp

/-- C4, witness: the amended theorem applied to a one-record list holding the
global address 2001:db8::1, which the enumerator keeps. -/
theorem claimC4_witness :
    [0xfe, 0x80].isPrefixOf
      [32, 1, 13, 184, 0, 0, 0, 0, 0, 0, 0, 0, 0, 0, 0, 1] = false :=
  claimC4_theorem true AF_INET6_LINUX
    [⟨false, 64, 10, 0, [32, 1, 13, 184, 0, 0, 0, 0, 0, 0, 0, 0, 0, 0, 0, 1]⟩]
    [32, 1, 13, 184, 0, 0, 0, 0, 0, 0, 0, 0, 0, 0, 0, 1] (by decide)

/-! Section: Claim C5 -/

/-- C5: on either platform, the per-family address sets accumulated by the
enumerator are duplicate-free, and every member originates from some input
record with a non-null address whose interface is running, is not the
loopback interface and (when the platform checks the flag, as Linux does) is
not deprecated; so no address enters the output through a loopback,
non-running or deprecated record, and duplicate records contribute one
element. -/
theorem claimC5_theorem (dep : Bool) (af6 : Nat) (records : List IfAddr) :
    ((ipSets dep af6 records).1.Nodup ∧ (ipSets dep af6 records).2.Nodup) ∧
    (∀ x ∈ (ipSets dep af6 records).1, ∃ a, a ∈ records ∧
      passesFilter dep a ∧ a.saFamily = AF_INET ∧ x = swapBytes32 a.v4Addr) ∧
    (∀ b ∈ (ipSets dep af6 records).2, ∃ a, a ∈ records ∧
      passesFilter dep a ∧ a.saFamily = af6 ∧ b = a.v6Addr) := by
  refine ⟨nodup_ipFold dep af6 records ([], []) List.nodup_nil List.nodup_nil,
    ?_, ?_⟩
  · intro x hx
    rcases mem_ipFold_fst dep af6 records ([], []) x hx with h | ⟨a, ha, hp, hf, hv⟩
    · exact absurd h (List.not_mem_nil x)
    · exact ⟨a, ha, hp, hf, hv⟩
  · intro b hb
    rcases mem_ipFold_snd dep af6 records ([], []) b hb with h | ⟨a, ha, hp, hf, _, hv⟩
    · exact absurd h (List.not_mem_nil b)
    · exact ⟨a, ha, hp, hf, hv⟩

/-- C5, witness: the provenance part applied to a concrete two-record list in
which the same IPv4 address appears twice (contributing one element), plus the
duplicate-freeness of the resulting sets. -/
theorem claimC5_witness :
    (∃ a, a ∈ [(⟨false, 64, 2, 2130706433, []⟩ : IfAddr),
        ⟨false, 64, 2, 2130706433, []⟩] ∧
      passesFilter true a ∧ a.saFamily = AF_INET ∧
      swapBytes32 2130706433 = swapBytes32 a.v4Addr) ∧
    (ipSets true AF_INET6_LINUX [(⟨false, 64, 2, 2130706433, []⟩ : IfAddr),
      ⟨false, 64, 2, 2130706433, []⟩]).1.Nodup :=
  ⟨(claimC5_theorem true AF_INET6_LINUX
      [⟨false, 64, 2, 2130706433, []⟩, ⟨false, 64, 2, 2130706433, []⟩]).2.1
      (swapBytes32 2130706433) (by decide),
    (claimC5_theorem true AF_INET6_LINUX
      [⟨false, 64, 2, 2130706433, []⟩, ⟨false, 64, 2, 2130706433, []⟩]).1.1⟩

/-! Section: Claim C8 -/

/-- C8: on both platforms the ip operation returns a list of exactly one
element — even when no address qualifies — and that element is the
comma-joined rendering of the accumulated IPv4 set; the IPv6 set is
accumulated by the enumerator but no rendering of it is emitted in the
returned list (the emission is commented out in both sources). -/
theorem claimC8_theorem (records : List IfAddr) :
    (linuxIp records).length = 1 ∧ (macIp records).length = 1 ∧
    linuxIp records =
      [String.intercalate ", "
        (((ipSets true AF_INET6_LINUX records).1).map ipv4Render)] ∧
    macIp records =
      [String.intercalate ", "
        (((ipSets false AF_INET6_MAC records).1).map ipv4Render)] :=
  ⟨rfl, rfl, rfl, rfl⟩

/-! Section: Lemmas about the mount-line filter -/

theorem isPrefixOf_append_space :
    ∀ P d : List Char, ' ' ∉ P → ' ' ∉ d → ∀ rest : List Char,
      P.isPrefixOf (d ++ ' ' :: rest) = P.isPrefixOf d
  | [], d, _, _, rest => by simp
  | p :: P, [], hP, _, rest => by
    have hp : ¬p = ' ' := fun h => hP (h ▸ List.mem_cons_self p P)
    simp [List.isPrefixOf, hp]
  | p :: P, a :: d, hP, hd, rest => by
    have hP2 : ' ' ∉ P := fun h => hP (List.mem_cons_of_mem p h)
    have hd2 : ' ' ∉ d := fun h => hd (List.mem_cons_of_mem a h)
    simp only [List.cons_append, List.isPrefixOf, List.append_eq,
      isPrefixOf_append_space P d hP2 hd2 rest]

theorem diskLineKeep_eq (line : String) :
    diskLineKeep line =
      (!diskRegexMatch line &&
        (startsWithStr line "/rpool/" || startsWithStr line "drvfs" ||
          startsWithStr line "/dev/")) := by
  unfold diskLineKeep
  cases h1 : diskRegexMatch line <;>
    cases h2 : startsWithStr line "/rpool/" <;>
    cases h3 : startsWithStr line "drvfs" <;>
    cases h4 : startsWithStr line "/dev/" <;>
    simp [h1, h2, h3, h4]

/-! Section: Claim C2 -/

/-- C2, counterexample: the mount-table line whose device field is
/rpool/data and whose mount path is /mnt is kept by the code (the rescue for
pool/passthrough devices tests the start of the line, i.e. the device field),
while under the claim — rescue keyed on the mount path, then drop of any
device not under /dev/ — the line would be dropped. -/
theorem claimC2_counterexample :
    diskLineKeep "/rpool/data /mnt zfs rw 0 0" = true ∧
    diskLineKeepClaim "/rpool/data /mnt zfs rw 0 0" = false := by
  decide

/-- C2, amended: for a mount-table line of the form device-space-remainder
with a space-free device field, the line is kept exactly when no pseudo-device
pattern fires — the device beginning with /dev/loop, /dev/ram or /dev/fd, or
the substring /var/snap occurring anywhere in the whole line — and the device
(not the mount path) begins with /rpool/, drvfs or /dev/. The pool or
passthrough rescue therefore keys on the device field and never overrides the
/var/snap exclusion. -/
theorem claimC2_theorem (device rest : String) (hdev : ' ' ∉ device.data) :
    diskLineKeep (device ++ " " ++ rest) =
      (!(startsWithStr device "/dev/loop" || startsWithStr device "/dev/ram" ||
          startsWithStr device "/dev/fd" ||
          strContains (device ++ " " ++ rest) "/var/snap") &&
        (startsWithStr device "/rpool/" || startsWithStr device "drvfs" ||
          startsWithStr device "/dev/")) := by
  have hdata : (device ++ " " ++ rest).data = device.data ++ ' ' :: rest.data := by
    simp [String.data_append]
  have htrans : ∀ p : String, ' ' ∉ p.data →
      startsWithStr (device ++ " " ++ rest) p = startsWithStr device p := by
    intro p hp
    unfold startsWithStr
    rw [hdata]
    exact isPrefixOf_append_space p.data device.data hp hdev rest.data
  rw [diskLineKeep_eq]
  unfold diskRegexMatch
  rw [htrans "/rpool/" (by decide), htrans "drvfs" (by decide),
    htrans "/dev/" (by decide), htrans "/dev/loop" (by decide),
    htrans "/dev/ram" (by decide), htrans "/dev/fd" (by decide)]

/-- C2, witness: the amended characterization applied to the counterexample
line with device /rpool/data, giving keep = true. -/
theorem claimC2_witness :
    diskLineKeep ("/rpool/data" ++ " " ++ "/mnt zfs rw 0 0") =
      (!(startsWithStr "/rpool/data" "/dev/loop" ||
          startsWithStr "/rpool/data" "/dev/ram" ||
          startsWithStr "/rpool/data" "/dev/fd" ||
          strContains ("/rpool/data" ++ " " ++ "/mnt zfs rw 0 0") "/var/snap") &&
        (startsWithStr "/rpool/data" "/rpool/" ||
          startsWithStr "/rpool/data" "drvfs" ||
          startsWithStr "/rpool/data" "/dev/")) :=
  claimC2_theorem "/rpool/data" "/mnt zfs rw 0 0" (by decide)

/-! Section: Claim C3 -/

/-- C3, counterexample: a statvfs result with 2^63 total blocks, 2^63 - 1
available blocks and block size 4 has a total-byte conversion that overflows
u64 (2^64 ≤ 2^63 * 4), yet the candidate is not dropped: the code multiplies
total * block_size uncheckedly (wrapping to 0 here) and emits the pair. Only
the used-byte multiplication is overflow-checked. -/
theorem claimC3_counterexample :
    diskUsage ⟨2 ^ 63, 2 ^ 63 - 1, 4⟩ = some (4, 0) ∧
    2 ^ 64 ≤ (2 ^ 63 : Nat) * 4 := by
  constructor
  · decide
  · decide

/-- C3, amended: a surviving candidate has availableBlocks strictly below
totalBlocks (so the checked subtraction succeeds and the used block count is
non-zero — usedBytes is never reported when it is zero and can never be
negative), usedBytes is exactly usedBlocks times blockSize and below 2^64,
and the reported total bytes are the wrapping product totalBlocks times
blockSize modulo 2^64; the candidate is dropped on subtraction underflow, on
zero used blocks and on overflow of the usedBytes (not the totalBytes)
conversion. -/
theorem claimC3_theorem :
    (∀ (s : StatVfs) (u t : Nat), diskUsage s = some (u, t) →
      s.f_bavail < s.f_blocks ∧ u = (s.f_blocks - s.f_bavail) * s.f_bsize ∧
        u < 2 ^ 64 ∧ t = s.f_blocks * s.f_bsize % 2 ^ 64) ∧
    (∀ s : StatVfs, s.f_blocks < s.f_bavail → diskUsage s = none) ∧
    (∀ s : StatVfs, s.f_blocks = s.f_bavail → diskUsage s = none) ∧
    (∀ s : StatVfs, s.f_bavail ≤ s.f_blocks →
      2 ^ 64 ≤ (s.f_blocks - s.f_bavail) * s.f_bsize → diskUsage s = none) := by
  have heq : ∀ s : StatVfs, diskUsage s =
      if s.f_bavail ≤ s.f_blocks then
        if s.f_blocks - s.f_bavail = 0 then none
        else if (s.f_blocks - s.f_bavail) * s.f_bsize < 2 ^ 64 then
          some ((s.f_blocks - s.f_bavail) * s.f_bsize,
            s.f_blocks * s.f_bsize % 2 ^ 64)
        else none
      else none := by
    intro s
    unfold diskUsage checkedSub checkedMul
    by_cases h1 : s.f_bavail ≤ s.f_blocks
    · by_cases h2 : s.f_blocks - s.f_bavail = 0
      · simp [h1, h2]
      · by_cases h3 : (s.f_blocks - s.f_bavail) * s.f_bsize < 2 ^ 64
        · simp [h1, h2, h3]
        · simp [h1, h2, h3]
    · simp [h1]
  refine ⟨?_, ?_, ?_, ?_⟩
  · intro s u t h
    rw [heq] at h
    split_ifs at h with h1 h2 h3
    have hp := Option.some.inj h
    have hu : u = (s.f_blocks - s.f_bavail) * s.f_bsize :=
      (congrArg Prod.fst hp).symm
    have ht : t = s.f_blocks * s.f_bsize % 2 ^ 64 :=
      (congrArg Prod.snd hp).symm
    exact ⟨by omega, hu, by omega, ht⟩
  · intro s hlt
    rw [heq, if_neg (by omega)]
  · intro s hab
    rw [heq, if_pos (by omega), if_pos (by omega)]
  · intro s hle hof
    rw [heq, if_pos hle]
    by_cases hz : s.f_blocks - s.f_bavail = 0
    · rw [if_pos hz]
    · rw [if_neg hz, if_neg (by omega)]

/-- C3, witness: the amended theorem applied to a surviving candidate
(4 total, 1 available, block size 2) and to three dropped ones — underflow,
zero used blocks, and usedBytes overflow. -/
theorem claimC3_witness :
    ((1 : Nat) < 4 ∧ (6 : Nat) = (4 - 1) * 2 ∧ (6 : Nat) < 2 ^ 64 ∧
      (8 : Nat) = 4 * 2 % 2 ^ 64) ∧
    diskUsage ⟨1, 2, 1⟩ = none ∧ diskUsage ⟨3, 3, 5⟩ = none ∧
    diskUsage ⟨2 ^ 64, 0, 2⟩ = none :=
  ⟨claimC3_theorem.1 ⟨4, 1, 2⟩ 6 8 (by decide),
    claimC3_theorem.2.1 ⟨1, 2, 1⟩ (by decide),
    claimC3_theorem.2.2.1 ⟨3, 3, 5⟩ rfl,
    claimC3_theorem.2.2.2 ⟨2 ^ 64, 0, 2⟩ (by decide) (by decide)⟩

end Mirafetch

